import Mathlib

/-
  Verification of the siren-compauxlib-matching pipeline.

  Shallow embedding of the source modules (tools.py, tokenizer.py,
  shingler.py, preprocessor.py, lsh_processor.py / custom_lsh.py,
  estimator.py).  Python strings are modelled as lists of Unicode code
  points (`List Nat`), pandas dataframes as lists of rows (structures
  or tuples), floats as `ℚ`, and `sys.exit(1)` as `Except String`.
-/

namespace Siren

/-- A Python string, as its list of Unicode code points. -/
abbrev Str := List Nat

/-! ## tools.py -/

/--
`shingle_label` from tools.py:
```
upper_bound = len(label)-window
return set(label[i:i+window] for i in range(max(1, upper_bound+1)))
```
The Python `set` of slices is modelled as the deduplicated list of
slices, in first-occurrence order.  Python's `len(label)-window` can be
negative, in which case `max(1, upper_bound+1)` yields 1; with
truncated `Nat` subtraction `max 1 (label.length - window + 1)` agrees
with it in every case.
-/
def shingle_label (label : Str) (window : Nat) : List Str :=
  ((List.range (max 1 (label.length - window + 1))).map
    (fun i => (label.drop i).take window)).dedup

/-- `tokenize` from tools.py with the default separator: Python
`str.split()` splits on runs of whitespace and never returns empty
tokens.  Whitespace here is the space (32) and tab (9) that the
normalizer can leave in a label. -/
def tokenize (label : Str) : List Str :=
  (label.splitOnP (fun c => c = 32 ∨ c = 9)).filter (fun t => t ≠ [])

/-- `get_label_length` from tools.py. -/
def get_label_length (label : Str) : Nat := label.length

/-- The character codes of Python's `string.punctuation`
(ASCII 33–47, 58–64, 91–96, 123–126). -/
def punctuation_codes : List Nat :=
  List.range' 33 15 ++ List.range' 58 7 ++ List.range' 91 6 ++ List.range' 123 4

/-- The translation table built in `preprocess_label`: every
punctuation character except the period (46) maps to a space (32). -/
def mapping_translation (c : Nat) : Nat :=
  if c ∈ punctuation_codes ∧ c ≠ 46 then 32 else c

/-- Python `str.upper` on the ASCII range (the only range reached in
`preprocess_label`, whose input to `.upper()` is `unidecode` output). -/
def upper_code (c : Nat) : Nat :=
  if 97 ≤ c ∧ c ≤ 122 then c - 32 else c

/--
`preprocess_label` from tools.py, parameterized by the external
`unidecode` transliteration `u` (an external library, not code of this
repository), mapping each code point to a list of replacement code
points: the label is transliterated, upper-cased, punctuation other
than the period is replaced by a space, then periods (46) and tab
characters (9) are removed.
-/
def preprocess_label (u : Nat → List Nat) (s : Str) : Str :=
  ((((s.flatMap u).map upper_code).map mapping_translation).filter
      (fun c => c ≠ 46)).filter (fun c => c ≠ 9)

/-- A concrete stand-in for the `unidecode` transliteration used to
instantiate theorems whose hypotheses state its two relevant library
guarantees (output is ASCII; ASCII code points pass through). -/
def unidecode_model (c : Nat) : List Nat :=
  if c < 128 then [c] else []

/-! ### Lemmas about the normalizer -/

theorem upper_code_lt_128 {c : Nat} (h : c < 128) : upper_code c < 128 := by
  unfold upper_code; split <;> omega

theorem upper_code_idem (c : Nat) : upper_code (upper_code c) = upper_code c := by
  unfold upper_code; split <;> (try split) <;> omega

theorem mapping_translation_lt_128 {c : Nat} (h : c < 128) :
    mapping_translation c < 128 := by
  unfold mapping_translation; split <;> omega

theorem mapping_translation_idem (c : Nat) :
    mapping_translation (mapping_translation c) = mapping_translation c := by
  by_cases h : c ∈ punctuation_codes ∧ c ≠ 46
  · rw [show mapping_translation c = 32 from by simp [mapping_translation, h]]
    decide
  · simp [mapping_translation, h]

theorem upper_code_mapping_translation (c : Nat) :
    upper_code (mapping_translation (upper_code c)) =
      mapping_translation (upper_code c) := by
  by_cases h : upper_code c ∈ punctuation_codes ∧ upper_code c ≠ 46
  · rw [show mapping_translation (upper_code c) = 32 from by
      simp [mapping_translation, h]]
    decide
  · rw [show mapping_translation (upper_code c) = upper_code c from by
      simp [mapping_translation, h]]
    exact upper_code_idem c

/-- Every character of a `preprocess_label` output is a fixed point of
all the per-character steps of the normalizer, is ASCII whenever the
transliteration only emits ASCII, and is neither a period nor a tab. -/
theorem preprocess_label_mem (u : Nat → List Nat)
    (h1 : ∀ c, ∀ d ∈ u c, d < 128) (s : Str) {c : Nat}
    (hc : c ∈ preprocess_label u s) :
    c < 128 ∧ upper_code c = c ∧ mapping_translation c = c ∧ c ≠ 46 ∧ c ≠ 9 := by
  unfold preprocess_label at hc
  obtain ⟨hc1, h9⟩ := List.mem_filter.mp hc
  obtain ⟨hc2, h46⟩ := List.mem_filter.mp hc1
  obtain ⟨b, hb, rfl⟩ := List.mem_map.mp hc2
  obtain ⟨e, he, rfl⟩ := List.mem_map.mp hb
  obtain ⟨a, _, hea⟩ := List.mem_flatMap.mp he
  simp only [ne_eq, decide_not, Bool.not_eq_eq_eq_not, Bool.not_true,
    decide_eq_false_iff_not] at h46 h9
  refine ⟨mapping_translation_lt_128 (upper_code_lt_128 (h1 a e hea)),
    upper_code_mapping_translation e, mapping_translation_idem _, h46, h9⟩

theorem flatMap_ascii_eq_self (u : Nat → List Nat)
    (h2 : ∀ c, c < 128 → u c = [c]) :
    ∀ l : List Nat, (∀ c ∈ l, c < 128) → l.flatMap u = l := by
  intro l
  induction l with
  | nil => intro _; rfl
  | cons a l ih =>
    intro h
    rw [List.flatMap_cons, h2 a (h a (List.mem_cons_self a l)),
      ih (fun c hc => h c (List.mem_cons_of_mem a hc))]
    rfl

/--
C9: the normalizer `preprocess_label` is idempotent, for every
transliteration `u` satisfying the two relevant guarantees of the
`unidecode` library: every emitted code point is ASCII, and ASCII code
points are transliterated to themselves.
-/
theorem preprocess_label_idempotent (u : Nat → List Nat)
    (h1 : ∀ c, ∀ d ∈ u c, d < 128) (h2 : ∀ c, c < 128 → u c = [c]) (s : Str) :
    preprocess_label u (preprocess_label u s) = preprocess_label u s := by
  have key := fun c hc => preprocess_label_mem u h1 s (c := c) hc
  conv_lhs => rw [preprocess_label]
  rw [flatMap_ascii_eq_self u h2 _ (fun c hc => (key c hc).1)]
  rw [show (preprocess_label u s).map upper_code = preprocess_label u s from
    (List.map_congr_left fun c hc => (key c hc).2.1).trans (List.map_id' _)]
  rw [show (preprocess_label u s).map mapping_translation = preprocess_label u s
      from
    (List.map_congr_left fun c hc => (key c hc).2.2.1).trans (List.map_id' _)]
  rw [show (preprocess_label u s).filter (fun c => c ≠ 46) =
      preprocess_label u s from
    List.filter_eq_self.mpr (fun c hc => by simpa using (key c hc).2.2.2.1)]
  rw [show (preprocess_label u s).filter (fun c => c ≠ 9) =
      preprocess_label u s from
    List.filter_eq_self.mpr (fun c hc => by simpa using (key c hc).2.2.2.2)]

/-- C9 witness: idempotence instantiated with the concrete
transliteration model, on the label `"Crédit Agricole S.A.\t"`. -/
theorem preprocess_label_idempotent_witness :
    preprocess_label unidecode_model (preprocess_label unidecode_model
        [67, 114, 233, 100, 105, 116, 32, 65, 103, 114, 105, 99, 111, 108,
         101, 32, 83, 46, 65, 46, 9]) =
      preprocess_label unidecode_model
        [67, 114, 233, 100, 105, 116, 32, 65, 103, 114, 105, 99, 111, 108,
         101, 32, 83, 46, 65, 46, 9] :=
  preprocess_label_idempotent unidecode_model
    (fun c d hd => by
      unfold unidecode_model at hd
      split at hd
      · next h => rw [List.mem_singleton] at hd; omega
      · simp at hd)
    (fun c hc => by simp [unidecode_model, hc])
    _

/--
C8: for every token whose length is at most the window size,
`shingle_label` returns exactly one shingle, equal to the whole token.
-/
theorem shingle_label_short (label : Str) (window : Nat)
    (h : label.length ≤ window) : shingle_label label window = [label] := by
  have h0 : max 1 (label.length - window + 1) = 1 := by omega
  rw [shingle_label, h0, show List.range 1 = [0] from rfl, List.map_singleton,
    List.drop_zero, List.take_of_length_le h]
  rfl

/-- C8 witness: the token `"ABC"` with window 4 yields the single
shingle `"ABC"`. -/
theorem shingle_label_short_witness :
    shingle_label [65, 66, 67] 4 = [[65, 66, 67]] :=
  shingle_label_short [65, 66, 67] 4 (by decide)

/-! ## tokenizer.py

`Tokenizer.df_entity_token` is a table with the grouping-key columns
and a `token` column; it is modelled as a list of `(key, token)` rows
(the grouping key, `['siret', 'denomination_type']` at training time
and `['COMPAUXLIB']` at prediction time, is kept abstract). -/

section Tokenizer

variable {K : Type} [DecidableEq K]

/-- The pandas groupby view of the token column: the tokens of the
entity with grouping key `k`, in row order. -/
def entity_tokens (rows : List (K × Str)) (k : K) : List Str :=
  (rows.filter (fun r => r.1 = k)).map (fun r => r.2)

/-- `Tokenizer._set_token_length` followed by
`Tokenizer._set_max_token_length`: the per-entity maximum token length
(merged onto every row of the entity; here computed per key).  An
entity with no rows gets 0. -/
def max_token_length (rows : List (K × Str)) (k : K) : Nat :=
  ((entity_tokens rows k).map List.length).foldr max 0

/-- `Tokenizer._aggregate_single_characters_entities`: the rows whose
entity's maximum token length is 1, grouped by key, with the group's
tokens concatenated (`''.join`) in row order.  (pandas groupby emits
one row per key; it sorts the keys, here they come in first-appearance
order, which does not change any per-key content.) -/
def aggregate_single_characters_entities (rows : List (K × Str)) :
    List (K × Str) :=
  let single_characters_df := rows.filter
    (fun r => max_token_length rows r.1 = 1)
  (single_characters_df.map (fun r => r.1)).dedup.map
    (fun k => (k, (entity_tokens single_characters_df k).flatten))

/-- `Tokenizer._preprocess_single_characters_entities`: concatenation
(`pd.concat`) of the aggregated single-character entities with the
rows whose token has more than one character. -/
def preprocess_single_characters_entities (rows : List (K × Str)) :
    List (K × Str) :=
  aggregate_single_characters_entities rows ++
    rows.filter (fun r => r.2.length > 1)

/-- Filtering a key-grouped frame built by mapping over a duplicate-free
key list picks out exactly the image of the key, when present. -/
theorem filter_map_keys (l : List K) (f : K → Str) (k : K) (hl : l.Nodup) :
    ((l.map (fun k' => (k', f k'))).filter (fun r => r.1 = k)) =
      if k ∈ l then [(k, f k)] else [] := by
  induction l with
  | nil => simp
  | cons a l ih =>
    rw [List.nodup_cons] at hl
    rw [List.map_cons, List.filter_cons]
    by_cases hak : a = k
    · simp only [hak] at hl ⊢
      rw [if_pos (by simp), ih hl.2, if_neg hl.1, if_pos (List.mem_cons_self k l)]
    · rw [if_neg (by simp [hak]), ih hl.2]
      by_cases hkl : k ∈ l
      · rw [if_pos hkl, if_pos (List.mem_cons_of_mem a hkl)]
      · rw [if_neg hkl, if_neg (fun hmem => by
          rcases List.mem_cons.mp hmem with h | h
          · exact hak h.symm
          · exact hkl h)]

theorem entity_tokens_append (a b : List (K × Str)) (k : K) :
    entity_tokens (a ++ b) k = entity_tokens a k ++ entity_tokens b k := by
  simp [entity_tokens]

/-- Every token of an entity is at most as long as the entity's
maximum token length. -/
theorem length_le_max_token_length (rows : List (K × Str)) (k : K) :
    ∀ t ∈ entity_tokens rows k, t.length ≤ max_token_length rows k := by
  intro t ht
  have h : t.length ∈ (entity_tokens rows k).map List.length :=
    List.mem_map_of_mem List.length ht
  unfold max_token_length
  generalize (entity_tokens rows k).map List.length = ls at h
  induction ls with
  | nil => cases h
  | cons a ls ih =>
    rcases List.mem_cons.mp h with rfl | h'
    · exact Nat.le_max_left _ _
    · exact le_trans (ih h') (Nat.le_max_right _ _)

/-- An entity with a nonzero maximum token length has at least one row. -/
theorem entity_tokens_ne_nil_of_max_pos (rows : List (K × Str)) (k : K)
    (h : 0 < max_token_length rows k) : entity_tokens rows k ≠ [] := by
  intro hnil
  rw [max_token_length, hnil] at h
  simp at h

/-- Restricting the single-character frame to one key:
if the key's own maximum is 1, the filter keeps all of its rows. -/
theorem entity_tokens_singles (rows : List (K × Str)) (k : K)
    (h : max_token_length rows k = 1) :
    entity_tokens (rows.filter (fun r => max_token_length rows r.1 = 1)) k =
      entity_tokens rows k := by
  unfold entity_tokens
  rw [List.filter_filter]
  congr 1
  apply List.filter_congr
  intro r _
  by_cases hk : r.1 = k
  · simp [hk, h]
  · simp [hk]

/-- The per-key content of the aggregated single-character frame. -/
theorem entity_tokens_aggregate (rows : List (K × Str)) (k : K) :
    entity_tokens (aggregate_single_characters_entities rows) k =
      if k ∈ (rows.filter
          (fun r => max_token_length rows r.1 = 1)).map (fun r => r.1) then
        [(entity_tokens
            (rows.filter (fun r => max_token_length rows r.1 = 1)) k).flatten]
      else [] := by
  simp only [aggregate_single_characters_entities]
  rw [entity_tokens]
  rw [filter_map_keys _ _ _ (List.nodup_dedup _)]
  by_cases hk : k ∈ (rows.filter
      (fun r => max_token_length rows r.1 = 1)).map (fun r => r.1)
  · rw [if_pos (List.mem_dedup.mpr hk), if_pos hk, List.map_singleton]
  · rw [if_neg (fun h => hk (List.mem_dedup.mp h)), if_neg hk, List.map_nil]

/--
C5 (single-character merge rule): in the output of
`Tokenizer._preprocess_single_characters_entities`, an entity whose
maximum surviving token length is 1 is reduced to a single token, the
concatenation of all its tokens in original row order; an entity whose
maximum surviving token length is greater than 1 keeps exactly its
tokens of length greater than 1, in order, and its length-1 tokens are
dropped.
-/
theorem preprocess_single_characters_entities_spec
    (rows : List (K × Str)) (k : K) :
    (max_token_length rows k = 1 →
      entity_tokens (preprocess_single_characters_entities rows) k =
        [(entity_tokens rows k).flatten]) ∧
    (1 < max_token_length rows k →
      entity_tokens (preprocess_single_characters_entities rows) k =
        (entity_tokens rows k).filter (fun t => t.length > 1)) := by
  unfold preprocess_single_characters_entities
  rw [entity_tokens_append, entity_tokens_aggregate]
  constructor
  · intro h1
    have hmem : k ∈ (rows.filter
        (fun r => max_token_length rows r.1 = 1)).map (fun r => r.1) := by
      obtain ⟨r, hr, hrk⟩ : ∃ r ∈ rows, r.1 = k := by
        have hne := entity_tokens_ne_nil_of_max_pos rows k (by omega)
        rcases he : entity_tokens rows k with _ | ⟨t, ts⟩
        · exact absurd he hne
        · have : t ∈ entity_tokens rows k := by
            rw [he]; exact List.mem_cons_self _ _
          obtain ⟨r, hr, _⟩ := List.mem_map.mp this
          exact ⟨r, (List.mem_filter.mp hr).1, by
            simpa using (List.mem_filter.mp hr).2⟩
      exact List.mem_map.mpr ⟨r,
        List.mem_filter.mpr ⟨hr, by simp [hrk, h1]⟩, hrk⟩
    rw [if_pos hmem, entity_tokens_singles rows k h1]
    have hnone : entity_tokens
        (rows.filter (fun r => r.2.length > 1)) k = [] := by
      unfold entity_tokens
      rw [List.filter_filter]
      rw [List.filter_eq_nil_iff.mpr, List.map_nil]
      intro r hr
      simp only [gt_iff_lt, Bool.and_eq_true, decide_eq_true_eq, not_and]
      intro hk hlen
      have := length_le_max_token_length rows k r.2
        (List.mem_map.mpr ⟨r, List.mem_filter.mpr ⟨hr, by simp [hk]⟩, rfl⟩)
      omega
    rw [hnone, List.append_nil]
  · intro h2
    have hkmem : k ∉ (rows.filter
        (fun r => max_token_length rows r.1 = 1)).map (fun r => r.1) := by
      intro hmem
      obtain ⟨r, hr, hrk⟩ := List.mem_map.mp hmem
      have := (List.mem_filter.mp hr).2
      rw [hrk] at this
      simp only [decide_eq_true_eq] at this
      omega
    rw [if_neg hkmem, List.nil_append]
    unfold entity_tokens
    rw [List.filter_map, List.filter_filter, List.filter_filter]
    congr 1
    apply List.filter_congr
    intro r _
    simp only [Function.comp_apply]
    rw [Bool.and_comm]

/-- C5 witness: the spec's two concrete scenarios — entity 1 with
tokens `["A", "B"]` merges to the single token `"AB"`; entity 2 with
tokens `["A", "CAR"]` keeps only `"CAR"`. -/
theorem preprocess_single_characters_entities_spec_witness :
    entity_tokens (preprocess_single_characters_entities
        [((1 : Nat), [65]), (1, [66]), (2, [65]), (2, [67, 65, 82])]) 1 =
      [[65, 66]] ∧
    entity_tokens (preprocess_single_characters_entities
        [((1 : Nat), [65]), (1, [66]), (2, [65]), (2, [67, 65, 82])]) 2 =
      [[67, 65, 82]] :=
  ⟨((preprocess_single_characters_entities_spec
      [((1 : Nat), [65]), (1, [66]), (2, [65]), (2, [67, 65, 82])] 1).1
        (by decide)).trans (by decide),
   ((preprocess_single_characters_entities_spec
      [((1 : Nat), [65]), (1, [66]), (2, [65]), (2, [67, 65, 82])] 2).2
        (by decide)).trans (by decide)⟩

end Tokenizer

/-! ### Token frequencies and the discard filter -/

/-- `Tokenizer._get_tokens_frequencies`: group the token column by
token, count the rows of each token, and divide by the total number of
rows.  The table is modelled as one `(token, frequency)` pair per
distinct token (pandas emits the group keys sorted; first-appearance
order is used here, which does not change the table's content). -/
def tokens_frequencies (tokens : List Str) : List (Str × ℚ) :=
  tokens.dedup.map
    (fun t => (t, (tokens.count t : ℚ) / (tokens.length : ℚ)))

/-- pandas `Series.quantile` with the default linear interpolation:
position `q·(n−1)` in the ascending sorted values, interpolating
between the two neighbouring order statistics.  The NaN returned on an
empty series (reached only for an empty corpus) is modelled as 0. -/
def series_quantile (values : List ℚ) (q : ℚ) : ℚ :=
  let sorted := values.insertionSort (fun a b => a ≤ b)
  let n := sorted.length
  if n = 0 then 0
  else
    let pos : ℚ := q * ((n : ℚ) - 1)
    let i : ℕ := (Int.floor pos).toNat
    let frac : ℚ := pos - (i : ℚ)
    let lo := sorted.getD i 0
    let hi := sorted.getD (min (i + 1) (n - 1)) 0
    lo + frac * (hi - lo)

/-- The descending sort relation used by
`sort_values('frequency', ascending=False)`. -/
def frequency_desc (a b : Str × ℚ) : Prop := b.2 ≤ a.2

instance : DecidableRel frequency_desc := fun a b => by
  unfold frequency_desc; infer_instance

instance : IsTotal (Str × ℚ) frequency_desc :=
  ⟨fun a b => (le_total b.2 a.2).symm.symm⟩

instance : IsTrans (Str × ℚ) frequency_desc :=
  ⟨fun _ _ _ hab hbc => le_trans hbc hab⟩

/--
`Tokenizer.get_token_to_filter`: computes the token frequency table
and, depending on `method`, either discards every token whose
frequency is at least the `threshold`-quantile of the frequency
distribution (`'quantile'`, requiring `threshold ∈ [0, 1]`), or
discards the `threshold` most frequent tokens (`'topk'`, requiring
`threshold ≥ 1`; pandas `head` needs the integral count, taken here as
the floor).  Out-of-range thresholds and unknown methods call
`sys.exit(1)`, modelled as `Except.error`.
-/
def get_token_to_filter (tokens : List Str) (method : String)
    (threshold : ℚ) : Except String (List (Str × ℚ)) :=
  let df_ranking := tokens_frequencies tokens
  if method = "quantile" then
    if threshold > 1 ∨ threshold < 0 then
      Except.error "Method quantile requires a threshold between 0 and 1."
    else
      let quantile_threshold :=
        series_quantile (df_ranking.map (fun p => p.2)) threshold
      Except.ok (df_ranking.filter (fun p => quantile_threshold ≤ p.2))
  else if method = "topk" then
    if threshold < 1 then
      Except.error "Method topk requires a threshold greater or equal to 1."
    else
      Except.ok ((df_ranking.insertionSort frequency_desc).take
        (Int.floor threshold).toNat)
  else
    Except.error "Invalid method chosen for filtering."

/--
C6: `get_token_to_filter` aborts exactly when its parameters are out
of range — method `'quantile'` with a threshold outside `[0, 1]`,
method `'topk'` with a threshold below 1, and any other method name
unconditionally.  For in-range parameters it returns the discard
table: under `'quantile'` exactly the tokens whose frequency is at
least the threshold-quantile of the frequency distribution, under
`'topk'` a prefix of the frequency table sorted by frequency
descending, of length `threshold` (capped by the table's size).
-/
theorem get_token_to_filter_spec (tokens : List Str) (method : String)
    (threshold : ℚ) :
    ((get_token_to_filter tokens method threshold).isOk = true ↔
      ((method = "quantile" ∧ 0 ≤ threshold ∧ threshold ≤ 1) ∨
       (method = "topk" ∧ 1 ≤ threshold))) ∧
    (method = "quantile" → 0 ≤ threshold → threshold ≤ 1 →
      ∃ res, get_token_to_filter tokens method threshold = Except.ok res ∧
        ∀ p, p ∈ res ↔ p ∈ tokens_frequencies tokens ∧
          series_quantile ((tokens_frequencies tokens).map (fun p => p.2))
            threshold ≤ p.2) ∧
    (method = "topk" → 1 ≤ threshold →
      ∃ res, get_token_to_filter tokens method threshold = Except.ok res ∧
        res.length =
          min (Int.floor threshold).toNat (tokens_frequencies tokens).length ∧
        res <+: (tokens_frequencies tokens).insertionSort frequency_desc ∧
        res.Sorted frequency_desc) := by
  refine ⟨?_, ?_, ?_⟩
  · unfold get_token_to_filter
    by_cases hq : method = "quantile"
    · subst hq
      rw [if_pos rfl]
      by_cases hth : threshold > 1 ∨ threshold < 0
      · rw [if_pos hth]
        constructor
        · intro h; simp [Except.isOk, Except.toBool] at h
        · rintro (⟨_, h0, h1⟩ | ⟨hm, _⟩)
          · rcases hth with h | h <;> linarith
          · exact absurd hm (by decide)
      · rw [if_neg hth]
        push_neg at hth
        exact ⟨fun _ => Or.inl ⟨rfl, hth.2, hth.1⟩, fun _ => rfl⟩
    · rw [if_neg hq]
      by_cases ht : method = "topk"
      · subst ht
        rw [if_pos rfl]
        by_cases hth : threshold < 1
        · rw [if_pos hth]
          constructor
          · intro h; simp [Except.isOk, Except.toBool] at h
          · rintro (⟨hm, _⟩ | ⟨_, h1⟩)
            · exact absurd hm (by decide)
            · linarith
        · rw [if_neg hth]
          push_neg at hth
          exact ⟨fun _ => Or.inr ⟨rfl, hth⟩, fun _ => rfl⟩
      · rw [if_neg ht]
        constructor
        · intro h; simp [Except.isOk, Except.toBool] at h
        · rintro (⟨hm, _⟩ | ⟨hm, _⟩)
          · exact absurd hm hq
          · exact absurd hm ht
  · intro hq h0 h1
    subst hq
    refine ⟨(tokens_frequencies tokens).filter
        (fun p => series_quantile
          ((tokens_frequencies tokens).map (fun p => p.2)) threshold ≤ p.2),
      ?_, ?_⟩
    · unfold get_token_to_filter
      rw [if_pos rfl, if_neg (by push_neg; exact ⟨h1, h0⟩)]
    · intro p
      rw [List.mem_filter]
      simp
  · intro ht h1t
    subst ht
    refine ⟨((tokens_frequencies tokens).insertionSort frequency_desc).take
        (Int.floor threshold).toNat, ?_, ?_, ?_, ?_⟩
    · unfold get_token_to_filter
      rw [if_neg (by decide), if_pos rfl, if_neg (by push_neg; exact h1t)]
    · rw [List.length_take, List.length_insertionSort]
    · exact List.take_prefix _ _
    · exact List.Pairwise.sublist (List.take_prefix _ _).sublist
        (List.sorted_insertionSort frequency_desc _)

/-- C6 witness: on the corpus `["A", "A", "B"]`, method `'topk'` with
threshold 1 is in range and succeeds. -/
theorem get_token_to_filter_spec_witness :
    (get_token_to_filter [[65], [65], [66]] "topk" 1).isOk = true :=
  (get_token_to_filter_spec [[65], [65], [66]] "topk" 1).1.mpr
    (Or.inr ⟨rfl, le_refl 1⟩)

/-! ## shingler.py and preprocessor.py -/

section Shingler

variable {K : Type} [DecidableEq K]

/-- `chain_shingles` from tools.py:
`','.join(sorted(list(set.union(*shingle))))` — the union of the
group's shingle sets, sorted.  The comma-joined string is modelled by
the sorted, duplicate-free list of shingles itself: the serialization
is injective on the comma-free shingles the pipeline produces and is
undone again by `str.split(',')` downstream. -/
def chain_shingles (shingle : List (List Str)) : List Str :=
  shingle.flatten.dedup.insertionSort (fun a b => a ≤ b)

/-- `Shingler._create_shingled_entity`:
`groupby(grouping_key)['shingled_token'].apply(chain_shingles)` —
one row per key carrying the chained shingles of the key's group
(keys in first-appearance order; pandas sorts them, with the same
per-key content). -/
def create_shingled_entity (df_token : List (K × List Str)) :
    List (K × List Str) :=
  (df_token.map (fun r => r.1)).dedup.map
    (fun k => (k, chain_shingles
      ((df_token.filter (fun r => r.1 = k)).map (fun r => r.2))))

/-- `Shingler.shingle`: the token rows with their `shingled_token`
column (`self.df_shingled` after `shingle()`). -/
def shingled_rows (rows : List (K × Str)) (window : Nat) :
    List (K × Str × List Str) :=
  rows.map (fun r => (r.1, r.2, shingle_label r.2 window))

/-- The `df_filtered` frame of
`Shingler.create_shingled_entities`: the shingled rows whose token is
not in the discard list (`discarded_mask` negated). -/
def filtered_rows (rows : List (K × Str)) (window : Nat)
    (discarded_token : List Str) : List (K × Str × List Str) :=
  (shingled_rows rows window).filter (fun r => r.2.1 ∉ discarded_token)

/--
`Shingler.create_shingled_entities`: the unfiltered chain is built per
entity over all shingled rows; the rows whose token is in the discard
list are removed; if no row survives, the empty frame is returned
(with a warning); otherwise the filtered chain is built per entity and
left-merged onto the unfiltered frame (an entity with no surviving row
gets `none`, pandas `NaN`).
-/
def create_shingled_entities (rows : List (K × Str)) (window : Nat)
    (discarded_token : List Str) :
    List (K × List Str × Option (List Str)) :=
  if (filtered_rows rows window discarded_token).length = 0 then []
  else
    (create_shingled_entity
        ((shingled_rows rows window).map (fun r => (r.1, r.2.2)))).map
      (fun r => (r.1, r.2,
        (create_shingled_entity
          ((filtered_rows rows window discarded_token).map
            (fun r => (r.1, r.2.2)))).lookup r.1))

/-- `Preprocessor._run_shingler`: run the shingler, then
`fillna` the filtered chain with the unfiltered one.  (When the
shingler returned the empty frame the fill is a no-op, matching the
early return of the source.) -/
def run_shingler (rows : List (K × Str)) (window : Nat)
    (discarded_token : List Str) : List (K × List Str × List Str) :=
  (create_shingled_entities rows window discarded_token).map
    (fun r => (r.1, r.2.1, r.2.2.getD r.2.1))

/-- `shingle_label` never returns an empty set of shingles. -/
theorem shingle_label_ne_nil (label : Str) (window : Nat) :
    shingle_label label window ≠ [] := by
  unfold shingle_label
  rw [ne_eq, List.dedup_eq_nil]
  intro h
  have := congrArg List.length h
  simp at this

/-- A chain over a group containing at least one nonempty shingle set
is nonempty. -/
theorem chain_shingles_ne_nil (ls : List (List Str))
    (h : ∃ s ∈ ls, s ≠ []) : chain_shingles ls ≠ [] := by
  obtain ⟨s, hs, hne⟩ := h
  rcases s with _ | ⟨x, s'⟩
  · exact absurd rfl hne
  · apply List.ne_nil_of_mem (a := x)
    rw [chain_shingles, List.mem_insertionSort, List.mem_dedup,
      List.mem_flatten]
    exact ⟨x :: s', hs, List.mem_cons_self _ _⟩

/-- The members of a grouped frame are the per-key chains of the keys
actually present. -/
theorem mem_create_shingled_entity {df_token : List (K × List Str)}
    {p : K × List Str} (hp : p ∈ create_shingled_entity df_token) :
    p.1 ∈ df_token.map (fun r => r.1) ∧
      p.2 = chain_shingles
        ((df_token.filter (fun r => r.1 = p.1)).map (fun r => r.2)) := by
  obtain ⟨k, hk, rfl⟩ := List.mem_map.mp hp
  exact ⟨List.mem_dedup.mp hk, rfl⟩

/-- Membership of a key among the rows of the shingled frames projects
back to a row of the original frame. -/
theorem mem_keys_shingled_rows {rows : List (K × Str)} {window : Nat}
    {k : K} (h : k ∈ ((shingled_rows rows window).map
      (fun r => (r.1, r.2.2))).map (fun r => r.1)) :
    ∃ a ∈ rows, a.1 = k := by
  rw [List.map_map, shingled_rows, List.map_map] at h
  obtain ⟨a, ha, hak⟩ := List.mem_map.mp h
  exact ⟨a, ha, hak⟩

/-- The per-key group of the (unfiltered) shingled frame contains the
shingle set of every row of the entity. -/
theorem shingle_mem_group {rows : List (K × Str)} {window : Nat}
    {a : K × Str} (ha : a ∈ rows) :
    shingle_label a.2 window ∈
      (((shingled_rows rows window).map (fun r => (r.1, r.2.2))).filter
        (fun r => r.1 = a.1)).map (fun r => r.2) := by
  refine List.mem_map.mpr ⟨(a.1, shingle_label a.2 window), ?_, rfl⟩
  refine List.mem_filter.mpr ⟨?_, by simp⟩
  rw [List.mem_map, shingled_rows]
  exact ⟨(a.1, a.2, shingle_label a.2 window),
    List.mem_map.mpr ⟨a, ha, rfl⟩, rfl⟩

/--
C7: every entity surviving `Preprocessor._run_shingler` has a
non-empty filtered (signing-input) representation, and an entity all
of whose tokens are in the discard table receives its unfiltered
representation as the filtered one.
-/
theorem run_shingler_spec (rows : List (K × Str)) (window : Nat)
    (discarded_token : List Str) :
    ∀ e ∈ run_shingler rows window discarded_token,
      ((∀ t ∈ entity_tokens rows e.1, t ∈ discarded_token) →
        e.2.2 = e.2.1) ∧ e.2.2 ≠ [] := by
  intro e he
  unfold run_shingler create_shingled_entities at he
  split at he
  · simp at he
  · rw [List.map_map] at he
    obtain ⟨p, hp, rfl⟩ := List.mem_map.mp he
    obtain ⟨hp1, hp2⟩ := mem_create_shingled_entity hp
    simp only [Function.comp_apply]
    constructor
    · intro hall
      have hnone : (create_shingled_entity
          ((filtered_rows rows window discarded_token).map
            (fun r => (r.1, r.2.2)))).lookup p.1 = none := by
        rw [List.lookup_eq_none_iff]
        intro q hq
        by_contra hbeq
        simp only [bne_iff_ne, ne_eq, not_not] at hbeq
        have hq1 := (mem_create_shingled_entity hq).1
        rw [← hbeq] at hq1
        rw [List.map_map, filtered_rows] at hq1
        obtain ⟨b, hb, hbk⟩ := List.mem_map.mp hq1
        obtain ⟨hbs, hbd⟩ := List.mem_filter.mp hb
        rw [shingled_rows] at hbs
        obtain ⟨a, ha, rfl⟩ := List.mem_map.mp hbs
        simp only [Function.comp_apply] at hbk
        have hmem : a.2 ∈ entity_tokens rows p.1 :=
          List.mem_map.mpr ⟨a, List.mem_filter.mpr ⟨ha, by simp [hbk]⟩, rfl⟩
        have := hall a.2 hmem
        simp [this] at hbd
      rw [hnone]
      rfl
    · have hne_unfiltered : p.2 ≠ [] := by
        rw [hp2]
        apply chain_shingles_ne_nil
        obtain ⟨a, ha, hak⟩ := mem_keys_shingled_rows hp1
        exact ⟨shingle_label a.2 window, hak ▸ shingle_mem_group ha,
          shingle_label_ne_nil a.2 window⟩
      rcases hlk : (create_shingled_entity
          ((filtered_rows rows window discarded_token).map
            (fun r => (r.1, r.2.2)))).lookup p.1 with _ | v
      · simpa [hlk] using hne_unfiltered
      · simp only [hlk, Option.getD_some]
        obtain ⟨l₁, l₂, hsplit, -⟩ := List.lookup_eq_some_iff.mp hlk
        have hv : (p.1, v) ∈ create_shingled_entity
            ((filtered_rows rows window discarded_token).map
              (fun r => (r.1, r.2.2))) := by
          rw [hsplit]
          exact List.mem_append_right _ (List.mem_cons_self _ _)
        obtain ⟨hv1, hv2⟩ := mem_create_shingled_entity hv
        dsimp only at hv1 hv2
        rw [hv2]
        apply chain_shingles_ne_nil
        rw [List.map_map, filtered_rows] at hv1
        obtain ⟨b, hb, hbk⟩ := List.mem_map.mp hv1
        obtain ⟨hbs, -⟩ := List.mem_filter.mp hb
        rw [shingled_rows] at hbs
        obtain ⟨a, ha, rfl⟩ := List.mem_map.mp hbs
        simp only [Function.comp_apply] at hbk
        refine ⟨shingle_label a.2 window, ?_, shingle_label_ne_nil a.2 window⟩
        refine List.mem_map.mpr ⟨(a.1, shingle_label a.2 window), ?_, rfl⟩
        refine List.mem_filter.mpr ⟨?_, by simp [hbk]⟩
        refine List.mem_map.mpr ⟨(a.1, a.2, shingle_label a.2 window), hb, rfl⟩

/-- C7 witness: with corpus rows `1 ↦ "AB"`, `2 ↦ "C"` and the discard
table `{"C"}`, entity 2 (whose only token is discarded) receives its
unfiltered representation, and both representations are non-empty. -/
theorem run_shingler_spec_witness :
    ((∀ t ∈ entity_tokens [((1 : Nat), [65, 66]), (2, [67])] (2 : Nat),
        t ∈ [[67]]) →
      ([[67]] : List Str) = [[67]]) ∧ ([[67]] : List Str) ≠ [] := by
  have h := run_shingler_spec [((1 : Nat), [65, 66]), (2, [67])] 4 [[67]]
    (2, [[67]], [[67]]) (by decide)
  exact h

/-- The per-entity unfiltered shingle set: the union of the shingle
sets of all the entity's tokens. -/
def unfiltered_shingle_set (rows : List (K × Str)) (window : Nat) (k : K) :
    Finset Str :=
  ((entity_tokens rows k).map (fun t => shingle_label t window)).flatten.toFinset

/-- Modelled from the spec: the code computing the
`jaccard_distance_unfiltered` column read by
`Estimator._set_final_rank` is not among the visible source modules
(only the estimator's sort and `main.py`'s rename mention it); the
spec defines it through `jaccard_distance = 1 − Jaccard similarity`
with the Jaccard similarity `|A∩B| / |A∪B|` recomputed exactly on the
unfiltered shingle representations of the two labels. -/
def jaccard_similarity (a b : List Str) : ℚ :=
  ((a.toFinset ∩ b.toFinset).card : ℚ) / ((a.toFinset ∪ b.toFinset).card : ℚ)

/-- Modelled from the spec: `jaccard_distance = 1 − Jaccard similarity`. -/
def jaccard_distance_unfiltered (a b : List Str) : ℚ :=
  1 - jaccard_similarity a b

/-- The per-key group of shingle sets in the unfiltered grouped frame
is exactly the shingle sets of the entity's tokens. -/
theorem group_shingles_eq (rows : List (K × Str)) (window : Nat) (k : K) :
    ((((shingled_rows rows window).map (fun r => (r.1, r.2.2))).filter
        (fun r => r.1 = k)).map (fun r => r.2)) =
      (entity_tokens rows k).map (fun t => shingle_label t window) := by
  simp only [shingled_rows, entity_tokens, List.map_map, List.filter_map,
    Function.comp]
  rfl

/-- The unfiltered chain delivered by `run_shingler` has exactly the
entity's unfiltered shingle set as its set of shingles. -/
theorem run_shingler_unfiltered_toFinset (rows : List (K × Str))
    (window : Nat) (discarded_token : List Str) :
    ∀ e ∈ run_shingler rows window discarded_token,
      e.2.1.toFinset = unfiltered_shingle_set rows window e.1 := by
  intro e he
  unfold run_shingler create_shingled_entities at he
  split at he
  · simp at he
  · rw [List.map_map] at he
    obtain ⟨p, hp, rfl⟩ := List.mem_map.mp he
    obtain ⟨-, hp2⟩ := mem_create_shingled_entity hp
    dsimp only [Function.comp_apply]
    rw [hp2, unfiltered_shingle_set, ← group_shingles_eq rows window p.1]
    ext x
    simp [chain_shingles, List.mem_toFinset, List.mem_insertionSort,
      List.mem_dedup]

/--
C2: for every two entities delivered to the final ranking stage, the
primary ranking measure `jaccard_distance_unfiltered` of their
unfiltered representations equals 1 minus the exact Jaccard similarity
of the two entities' unfiltered shingle sets — the unions over all
tokens, unaffected by the discard table used by the filtered/LSH
stage.
-/
theorem jaccard_distance_unfiltered_spec (rows : List (K × Str))
    (window : Nat) (discarded_token : List Str)
    (e e' : K × List Str × List Str)
    (he : e ∈ run_shingler rows window discarded_token)
    (he' : e' ∈ run_shingler rows window discarded_token) :
    jaccard_distance_unfiltered e.2.1 e'.2.1 =
      1 - ((unfiltered_shingle_set rows window e.1 ∩
            unfiltered_shingle_set rows window e'.1).card : ℚ) /
          ((unfiltered_shingle_set rows window e.1 ∪
            unfiltered_shingle_set rows window e'.1).card : ℚ) := by
  rw [jaccard_distance_unfiltered, jaccard_similarity,
    run_shingler_unfiltered_toFinset rows window discarded_token e he,
    run_shingler_unfiltered_toFinset rows window discarded_token e' he']

/-- C2 witness: for the corpus `1 ↦ "AB"`, `2 ↦ "ABC"` with an empty
discard table, the ranking measure of the two delivered entities is
1 minus the exact Jaccard similarity of their shingle sets. -/
theorem jaccard_distance_unfiltered_spec_witness :
    jaccard_distance_unfiltered [[65, 66]] [[65, 66, 67]] =
      1 - ((unfiltered_shingle_set
              [((1 : Nat), [65, 66]), (2, [65, 66, 67])] 4 1 ∩
            unfiltered_shingle_set
              [((1 : Nat), [65, 66]), (2, [65, 66, 67])] 4 2).card : ℚ) /
          ((unfiltered_shingle_set
              [((1 : Nat), [65, 66]), (2, [65, 66, 67])] 4 1 ∪
            unfiltered_shingle_set
              [((1 : Nat), [65, 66]), (2, [65, 66, 67])] 4 2).card : ℚ) := by
  have h := jaccard_distance_unfiltered_spec
    [((1 : Nat), [65, 66]), (2, [65, 66, 67])] 4 []
    (1, [[65, 66]], [[65, 66]]) (2, [[65, 66, 67]], [[65, 66, 67]])
    (by decide) (by decide)
  exact h

end Shingler

/-! ## custom_lsh.py and lsh_processor.py

A MinHash signature is the array `minhash.hashvalues`; its entries are
modelled as natural numbers.  datasketch's band boundaries are
`hashranges = [(i*r, (i+1)*r) for i in range(b)]`; `CustomLSH` persists
them verbatim as `hashrange_i` metadata, and both the training insert
(`MinHashLSH.insert`, keyed through `_byteswap`) and
`PredictionLSHProcessor._get_bytes_hashvalues` serialize the same
slice `hashvalues[start:end]` with the same byteswapped byte encoding,
which is injective on fixed-width values — a band key is therefore
modelled by the slice's list of values. -/

/-- A MinHash signature. -/
abbrev Signature := List Nat

/-- The band boundaries `(i*r, (i+1)*r)` shared by `MinHashLSH` and
the persisted `hashrange_i` metadata. -/
def hashrange (r i : Nat) : Nat × Nat := (i * r, (i + 1) * r)

/-- The slice `hashvalues[start:end]` of a signature. -/
def band_slice (sig : Signature) (range : Nat × Nat) : List Nat :=
  (sig.take range.2).drop range.1

/-- `TrainingLSHProcessor._update_lsh_index` /
`CustomLSH.prepare_data_to_store`: inserting every `(id, signature)`
pair files the id under each band's slice key; the frozen index is the
flat table of `(band, slice, candidate id)` rows that
`_store_lsh_data` persists. -/
def build_lsh_index (b r : Nat) (entries : List (Nat × Signature)) :
    List (Nat × List Nat × Nat) :=
  entries.flatMap (fun e =>
    (List.range b).map (fun i => (i, band_slice e.2 (hashrange r i), e.1)))

/-- `PredictionLSHProcessor.run`: for every band of the query
signature, collect the candidate ids stored under the identical
`(band, slice)` key and take their union (the SQL left join followed
by `explode` and `drop_duplicates`); a slice matching no stored bucket
contributes nothing. -/
def query_lsh_index (b r : Nat) (index : List (Nat × List Nat × Nat))
    (sig : Signature) : List Nat :=
  (List.range b).flatMap (fun i =>
    (index.filter (fun row =>
      row.1 = i ∧ row.2.1 = band_slice sig (hashrange r i))).map
      (fun row => row.2.2))

/--
C4: insert-then-query round trip — a signature inserted under id `n`
into the training index is recovered by a prediction-time query with
the same signature and the persisted band metadata; and a query
against an index holding no buckets returns the empty candidate set
rather than an error.
-/
theorem lsh_insert_query_round_trip (b r n : Nat) (sig : Signature)
    (entries : List (Nat × Signature)) (hb : 0 < b)
    (hmem : (n, sig) ∈ entries) :
    n ∈ query_lsh_index b r (build_lsh_index b r entries) sig ∧
      query_lsh_index b r (build_lsh_index b r []) sig = [] := by
  constructor
  · rw [query_lsh_index, List.mem_flatMap]
    refine ⟨0, List.mem_range.mpr hb, ?_⟩
    refine List.mem_map.mpr ⟨(0, band_slice sig (hashrange r 0), n), ?_, rfl⟩
    refine List.mem_filter.mpr ⟨?_, by simp⟩
    rw [build_lsh_index, List.mem_flatMap]
    exact ⟨(n, sig), hmem,
      List.mem_map.mpr ⟨0, List.mem_range.mpr hb, rfl⟩⟩
  · rw [build_lsh_index, query_lsh_index]
    simp

/-- C4 witness: with 2 bands of 2 rows, the signature `[3, 1, 4, 1]`
inserted under id 7 is returned by the query for itself. -/
theorem lsh_insert_query_round_trip_witness :
    7 ∈ query_lsh_index 2 2
        (build_lsh_index 2 2 [(7, [3, 1, 4, 1])]) [3, 1, 4, 1] ∧
      query_lsh_index 2 2 (build_lsh_index 2 2 []) [3, 1, 4, 1] = [] :=
  lsh_insert_query_round_trip 2 2 7 [3, 1, 4, 1] [(7, [3, 1, 4, 1])]
    (by decide) (by decide)




/-! ## estimator.py — granularity resolution -/

/-- A row of the estimator's input frame, restricted to the columns
that decide the granularity resolution (`_prepare_final_output` also
left-merges personne-morale attribute columns onto the kept rows;
they play no role in which rows are kept). -/
structure FecRow where
  compauxlib : Str
  siret : Str
  denomination_type : Str
deriving DecidableEq

/-- `Estimator._prepare_unite_legale`: keep the rows whose
denomination kind is a legal-entity-level one, set
`siren = siret[:9]`, record the distinct sirets of those rows as
`siret_to_discard`, then (`_prepare_final_output`) drop the `siret`
and `denomination_type` columns and deduplicate on
`(COMPAUXLIB, siren)`.  (`List.dedup` keeps one of several equal
`(COMPAUXLIB, siren)` pairs, as `drop_duplicates` does.) -/
def prepare_unite_legale (input_df : List FecRow)
    (denomination_unite_legale : List Str) :
    List (Str × Str) × List Str :=
  (((input_df.filter
      (fun r => r.denomination_type ∈ denomination_unite_legale)).map
        (fun r => (r.compauxlib, r.siret.take 9))).dedup,
   ((input_df.filter
      (fun r => r.denomination_type ∈ denomination_unite_legale)).map
        (fun r => r.siret)).dedup)

/-- `Estimator._prepare_etablissement`: keep the rows whose `siret`
is not among `siret_to_discard`, then (`_prepare_final_output`) drop
`denomination_type` and deduplicate on `(COMPAUXLIB, siret)`. -/
def prepare_etablissement (input_df : List FecRow)
    (siret_to_discard : List Str) : List (Str × Str) :=
  ((input_df.filter (fun r => r.siret ∉ siret_to_discard)).map
    (fun r => (r.compauxlib, r.siret))).dedup

/--
C3 counterexample: an establishment row is discarded only when its
full 14-character siret equals the siret of a legal-entity-level
match.  Here the two rows share the parent id (first 9 characters)
but not the siret: the legal-entity match (kind 85) is collapsed to
the parent id, yet the establishment row (kind 69), whose parent id
already has that legal-entity-level match, is NOT discarded.
-/
theorem prepare_etablissement_keeps_sibling_establishment :
    ((⟨[65], [1, 2, 3, 4, 5, 6, 7, 8, 9, 0, 0, 0, 0, 2], [69]⟩ :
        FecRow).denomination_type ∉ ([[85]] : List Str)) ∧
    (∃ r ∈ [(⟨[65], [1, 2, 3, 4, 5, 6, 7, 8, 9, 0, 0, 0, 0, 1], [85]⟩ :
              FecRow),
            ⟨[65], [1, 2, 3, 4, 5, 6, 7, 8, 9, 0, 0, 0, 0, 2], [69]⟩],
      r.denomination_type ∈ ([[85]] : List Str) ∧
        r.siret.take 9 =
          ([1, 2, 3, 4, 5, 6, 7, 8, 9, 0, 0, 0, 0, 2] : Str).take 9) ∧
    (([65], [1, 2, 3, 4, 5, 6, 7, 8, 9, 0, 0, 0, 0, 2]) ∈
      prepare_etablissement
        [⟨[65], [1, 2, 3, 4, 5, 6, 7, 8, 9, 0, 0, 0, 0, 1], [85]⟩,
         ⟨[65], [1, 2, 3, 4, 5, 6, 7, 8, 9, 0, 0, 0, 0, 2], [69]⟩]
        (prepare_unite_legale
          [⟨[65], [1, 2, 3, 4, 5, 6, 7, 8, 9, 0, 0, 0, 0, 1], [85]⟩,
           ⟨[65], [1, 2, 3, 4, 5, 6, 7, 8, 9, 0, 0, 0, 0, 2], [69]⟩]
          [[85]]).2) := by
  decide

/--
C3 (amended): legal-entity-level matches are collapsed to their
parent id (the first 9 characters of the siret), and an establishment
row is discarded exactly when its full siret equals the siret of some
legal-entity-level match — establishment matches sharing only the
parent id survive this stage (one row per parent is only enforced
later, by the global siren deduplication of `_set_final_rank`).
-/
theorem prepare_granularity_spec (input_df : List FecRow)
    (denomination_unite_legale : List Str) :
    (∀ q ∈ (prepare_unite_legale input_df denomination_unite_legale).1,
      ∃ row ∈ input_df, row.denomination_type ∈ denomination_unite_legale ∧
        q = (row.compauxlib, row.siret.take 9)) ∧
    (∀ row ∈ input_df, row.denomination_type ∈ denomination_unite_legale →
      (row.compauxlib, row.siret.take 9) ∈
        (prepare_unite_legale input_df denomination_unite_legale).1) ∧
    (∀ s, s ∈ (prepare_unite_legale input_df denomination_unite_legale).2 ↔
      ∃ row ∈ input_df, row.denomination_type ∈ denomination_unite_legale ∧
        row.siret = s) ∧
    (∀ q ∈ prepare_etablissement input_df
        (prepare_unite_legale input_df denomination_unite_legale).2,
      ∃ row ∈ input_df, q = (row.compauxlib, row.siret) ∧
        row.siret ∉
          (prepare_unite_legale input_df denomination_unite_legale).2) ∧
    (∀ row ∈ input_df,
      row.siret ∉
          (prepare_unite_legale input_df denomination_unite_legale).2 →
      (row.compauxlib, row.siret) ∈ prepare_etablissement input_df
        (prepare_unite_legale input_df denomination_unite_legale).2) := by
  refine ⟨?_, ?_, ?_, ?_, ?_⟩
  · intro q hq
    obtain ⟨row, hrow, rfl⟩ := List.mem_map.mp (List.mem_dedup.mp hq)
    obtain ⟨hin, hden⟩ := List.mem_filter.mp hrow
    exact ⟨row, hin, by simpa using hden, rfl⟩
  · intro row hrow hden
    exact List.mem_dedup.mpr (List.mem_map.mpr
      ⟨row, List.mem_filter.mpr ⟨hrow, by simpa using hden⟩, rfl⟩)
  · intro s
    constructor
    · intro hs
      obtain ⟨row, hrow, rfl⟩ := List.mem_map.mp (List.mem_dedup.mp hs)
      obtain ⟨hin, hden⟩ := List.mem_filter.mp hrow
      exact ⟨row, hin, by simpa using hden, rfl⟩
    · rintro ⟨row, hin, hden, rfl⟩
      exact List.mem_dedup.mpr (List.mem_map.mpr
        ⟨row, List.mem_filter.mpr ⟨hin, by simpa using hden⟩, rfl⟩)
  · intro q hq
    obtain ⟨row, hrow, rfl⟩ := List.mem_map.mp (List.mem_dedup.mp hq)
    obtain ⟨hin, hsir⟩ := List.mem_filter.mp hrow
    exact ⟨row, hin, rfl, by simpa using hsir⟩
  · intro row hrow hsir
    exact List.mem_dedup.mpr (List.mem_map.mpr
      ⟨row, List.mem_filter.mpr ⟨hrow, by simpa using hsir⟩, rfl⟩)

/-- C3 amended-claim witness: the legal-entity match of the
counterexample frame is collapsed to its parent id in the
unite-legale output. -/
theorem prepare_granularity_spec_witness :
    (([65], ([1, 2, 3, 4, 5, 6, 7, 8, 9, 0, 0, 0, 0, 1] : Str).take 9) ∈
      (prepare_unite_legale
        [⟨[65], [1, 2, 3, 4, 5, 6, 7, 8, 9, 0, 0, 0, 0, 1], [85]⟩,
         ⟨[65], [1, 2, 3, 4, 5, 6, 7, 8, 9, 0, 0, 0, 0, 2], [69]⟩]
        [[85]]).1) :=
  (prepare_granularity_spec
      [⟨[65], [1, 2, 3, 4, 5, 6, 7, 8, 9, 0, 0, 0, 0, 1], [85]⟩,
       ⟨[65], [1, 2, 3, 4, 5, 6, 7, 8, 9, 0, 0, 0, 0, 2], [69]⟩]
      [[85]]).2.1
    ⟨[65], [1, 2, 3, 4, 5, 6, 7, 8, 9, 0, 0, 0, 0, 1], [85]⟩
    (by decide) (by decide)

/-! ## estimator.py — final ranking and validation

`Estimator._set_final_rank` operates on the concatenated candidate
frame after the geo-distance column has been set (a constant 0 when no
coordinates are supplied, the computed minimum distance otherwise);
the rows are modelled with the columns the method reads. -/

/-- A candidate row as seen by `_set_final_rank`. -/
structure CandidateRow where
  compauxlib : Str
  siren : Str
  jaccard_distance_unfiltered : ℚ
  geo_distance : ℚ
deriving DecidableEq

/-- The ascending order of
`sort_values(['COMPAUXLIB', 'jaccard_distance_unfiltered',
'geo_distance'])`: lexicographic on the three key columns. -/
def candidate_order (a b : CandidateRow) : Prop :=
  a.compauxlib < b.compauxlib ∨ (a.compauxlib = b.compauxlib ∧
    (a.jaccard_distance_unfiltered < b.jaccard_distance_unfiltered ∨
      (a.jaccard_distance_unfiltered = b.jaccard_distance_unfiltered ∧
        a.geo_distance ≤ b.geo_distance)))

/-- The ascending order on `(jaccard_distance, geo_distance)` within
one query entity. -/
def distance_order (a b : CandidateRow) : Prop :=
  a.jaccard_distance_unfiltered < b.jaccard_distance_unfiltered ∨
    (a.jaccard_distance_unfiltered = b.jaccard_distance_unfiltered ∧
      a.geo_distance ≤ b.geo_distance)

/-- The order of `sort_values(by='final_rank')`. -/
def rank_order (a b : CandidateRow × Nat) : Prop := a.2 ≤ b.2

instance : DecidableRel candidate_order := fun a b => by
  unfold candidate_order; infer_instance

instance : DecidableRel distance_order := fun a b => by
  unfold distance_order; infer_instance

instance : DecidableRel rank_order := fun a b => by
  unfold rank_order; infer_instance

instance : IsTotal CandidateRow candidate_order := by
  constructor
  intro a b
  rcases lt_trichotomy a.compauxlib b.compauxlib with h | h | h
  · exact Or.inl (Or.inl h)
  · rcases lt_trichotomy a.jaccard_distance_unfiltered
      b.jaccard_distance_unfiltered with h2 | h2 | h2
    · exact Or.inl (Or.inr ⟨h, Or.inl h2⟩)
    · rcases le_total a.geo_distance b.geo_distance with h3 | h3
      · exact Or.inl (Or.inr ⟨h, Or.inr ⟨h2, h3⟩⟩)
      · exact Or.inr (Or.inr ⟨h.symm, Or.inr ⟨h2.symm, h3⟩⟩)
    · exact Or.inr (Or.inr ⟨h.symm, Or.inl h2⟩)
  · exact Or.inr (Or.inl h)

instance : IsTrans CandidateRow candidate_order := by
  constructor
  intro a b c hab hbc
  rcases hab with h1 | ⟨e1, h1⟩
  · rcases hbc with h2 | ⟨e2, h2⟩
    · exact Or.inl (lt_trans h1 h2)
    · exact Or.inl (e2 ▸ h1)
  · rcases hbc with h2 | ⟨e2, h2⟩
    · exact Or.inl (e1 ▸ h2)
    · refine Or.inr ⟨e1.trans e2, ?_⟩
      rcases h1 with h1 | ⟨f1, h1⟩
      · rcases h2 with h2 | ⟨f2, h2⟩
        · exact Or.inl (lt_trans h1 h2)
        · exact Or.inl (f2 ▸ h1)
      · rcases h2 with h2 | ⟨f2, h2⟩
        · exact Or.inl (f1 ▸ h2)
        · exact Or.inr ⟨f1.trans f2, le_trans h1 h2⟩

instance : IsTotal (CandidateRow × Nat) rank_order :=
  ⟨fun a b => Nat.le_total a.2 b.2⟩

instance : IsTrans (CandidateRow × Nat) rank_order :=
  ⟨fun _ _ _ hab hbc => Nat.le_trans hab hbc⟩

/-- The first sort of `_set_final_rank`. -/
def sort_candidates (df : List CandidateRow) : List CandidateRow :=
  df.insertionSort candidate_order

/-- The number of rows of one query entity, as counted by the
grouped cumulative sum. -/
def count_compauxlib (l : List CandidateRow) (c : Str) : Nat :=
  (l.filter (fun r => r.compauxlib = c)).length

/-- `groupby('COMPAUXLIB')['final_rank'].cumsum()` over the constant
column 1, in the current row order: each row receives one plus the
number of earlier rows of the same query entity (`pre` is the list of
rows already passed). -/
def cumsum_ranks (pre : List CandidateRow) :
    List CandidateRow → List (CandidateRow × Nat)
  | [] => []
  | r :: rest =>
    (r, count_compauxlib pre r.compauxlib + 1) ::
      cumsum_ranks (pre ++ [r]) rest

/-- The frame with the per-query-entity `final_rank` column. -/
def with_final_rank (s : List CandidateRow) : List (CandidateRow × Nat) :=
  cumsum_ranks [] s

/-- `drop_duplicates(subset='siren')`: keep the first row of each
siren in the current order (`seen` accumulates the sirens kept). -/
def drop_duplicates_siren :
    List (CandidateRow × Nat) → List Str → List (CandidateRow × Nat)
  | [], _ => []
  | p :: rest, seen =>
    if p.1.siren ∈ seen then drop_duplicates_siren rest seen
    else p :: drop_duplicates_siren rest (p.1.siren :: seen)

/--
`Estimator._set_final_rank`: sort by
`(COMPAUXLIB, jaccard_distance_unfiltered, geo_distance)`, assign the
per-entity cumulative rank, sort globally by rank, deduplicate by
siren keeping the first (best-ranked) occurrence, and mark a row
validated when `limit` is absent or `final_rank <= limit`.
-/
def set_final_rank (df : List CandidateRow) (limit : Option Nat) :
    List (CandidateRow × Nat × Bool) :=
  (drop_duplicates_siren
      ((with_final_rank (sort_candidates df)).insertionSort rank_order)
      []).map
    (fun p => (p.1, p.2,
      match limit with
      | none => true
      | some l => decide (p.2 ≤ l)))

/-- Nothing delivered by the siren deduplication carries a siren
already seen. -/
theorem drop_duplicates_siren_not_seen :
    ∀ (l : List (CandidateRow × Nat)) (seen : List Str),
      ∀ p ∈ drop_duplicates_siren l seen, p.1.siren ∉ seen
  | [], seen => by simp [drop_duplicates_siren]
  | r :: rest, seen => by
    intro p hp
    rw [drop_duplicates_siren] at hp
    by_cases h : r.1.siren ∈ seen
    · rw [if_pos h] at hp
      exact drop_duplicates_siren_not_seen rest seen p hp
    · rw [if_neg h] at hp
      rcases List.mem_cons.mp hp with rfl | hp'
      · exact h
      · have := drop_duplicates_siren_not_seen rest (r.1.siren :: seen) p hp'
        exact fun hm => this (List.mem_cons_of_mem _ hm)

/-- The siren deduplication delivers pairwise distinct sirens. -/
theorem drop_duplicates_siren_pairwise :
    ∀ (l : List (CandidateRow × Nat)) (seen : List Str),
      (drop_duplicates_siren l seen).Pairwise
        (fun a b => a.1.siren ≠ b.1.siren)
  | [], seen => by simp [drop_duplicates_siren]
  | r :: rest, seen => by
    rw [drop_duplicates_siren]
    by_cases h : r.1.siren ∈ seen
    · rw [if_pos h]
      exact drop_duplicates_siren_pairwise rest seen
    · rw [if_neg h]
      refine List.Pairwise.cons ?_ (drop_duplicates_siren_pairwise rest _)
      intro q hq he
      have := drop_duplicates_siren_not_seen rest (r.1.siren :: seen) q hq
      exact this (List.mem_cons.mpr (Or.inl he.symm))

/-- In a rank-sorted frame, the surviving (first) row of each siren
has the minimal rank among all that siren's rows. -/
theorem drop_duplicates_siren_min :
    ∀ (l : List (CandidateRow × Nat)) (seen : List Str),
      l.Sorted rank_order →
      ∀ p ∈ drop_duplicates_siren l seen, ∀ q ∈ l,
        q.1.siren = p.1.siren → p.2 ≤ q.2
  | [], seen => by
    intro _ p hp
    simp [drop_duplicates_siren] at hp
  | r :: rest, seen => by
    intro hs p hp q hq hqp
    rw [drop_duplicates_siren] at hp
    by_cases h : r.1.siren ∈ seen
    · rw [if_pos h] at hp
      rcases List.mem_cons.mp hq with rfl | hq'
      · exact absurd (hqp ▸ h)
          (drop_duplicates_siren_not_seen rest seen p hp)
      · exact drop_duplicates_siren_min rest seen hs.of_cons p hp q hq' hqp
    · rw [if_neg h] at hp
      rcases List.mem_cons.mp hp with rfl | hp'
      · rcases List.mem_cons.mp hq with rfl | hq'
        · exact le_refl _
        · exact List.rel_of_sorted_cons hs q hq'
      · rcases List.mem_cons.mp hq with rfl | hq'
        · exact absurd (List.mem_cons.mpr (Or.inl hqp.symm))
            (drop_duplicates_siren_not_seen rest (q.1.siren :: seen) p hp')
        · exact drop_duplicates_siren_min rest (r.1.siren :: seen)
            hs.of_cons p hp' q hq' hqp

/-- Every siren of the input keeps a representative (or was
already seen). -/
theorem drop_duplicates_siren_covers :
    ∀ (l : List (CandidateRow × Nat)) (seen : List Str), ∀ q ∈ l,
      q.1.siren ∈ seen ∨
        ∃ p ∈ drop_duplicates_siren l seen, p.1.siren = q.1.siren
  | [], seen => by simp
  | r :: rest, seen => by
    intro q hq
    rw [drop_duplicates_siren]
    by_cases h : r.1.siren ∈ seen
    · rw [if_pos h]
      rcases List.mem_cons.mp hq with rfl | hq'
      · exact Or.inl h
      · exact drop_duplicates_siren_covers rest seen q hq'
    · rw [if_neg h]
      rcases List.mem_cons.mp hq with rfl | hq'
      · exact Or.inr ⟨q, List.mem_cons_self _ _, rfl⟩
      · rcases drop_duplicates_siren_covers rest (r.1.siren :: seen) q hq'
          with hin | ⟨p, hp, hps⟩
        · rcases List.mem_cons.mp hin with heq | hin'
          · exact Or.inr ⟨r, List.mem_cons_self _ _, heq.symm⟩
          · exact Or.inl hin'
        · exact Or.inr ⟨p, List.mem_cons_of_mem _ hp, hps⟩

/--
C10: after `_set_final_rank`, the deduplication by siren is global:
in the resulting frame — validated and unvalidated rows alike — every
siren appears in at most one row, so a parent id proposed for one
COMPAUXLIB never appears as a candidate of another in the same batch.
-/
theorem set_final_rank_siren_unique (df : List CandidateRow)
    (limit : Option Nat) :
    (set_final_rank df limit).Pairwise
      (fun a b => a.1.siren ≠ b.1.siren) := by
  unfold set_final_rank
  exact List.Pairwise.map _ (fun a b hab => hab)
    (drop_duplicates_siren_pairwise _ [])

theorem count_compauxlib_append (l₁ l₂ : List CandidateRow) (c : Str) :
    count_compauxlib (l₁ ++ l₂) c =
      count_compauxlib l₁ c + count_compauxlib l₂ c := by
  unfold count_compauxlib
  rw [List.filter_append, List.length_append]

theorem count_compauxlib_cons (r : CandidateRow) (l : List CandidateRow)
    (c : Str) :
    count_compauxlib (r :: l) c =
      (if r.compauxlib = c then 1 else 0) + count_compauxlib l c := by
  unfold count_compauxlib
  rw [List.filter_cons]
  by_cases h : r.compauxlib = c
  · rw [if_pos (by simp [h]), if_pos h, List.length_cons]
    omega
  · rw [if_neg (by simp [h]), if_neg h]
    omega

/-- The cumulative per-entity ranks assigned by
`groupby('COMPAUXLIB').cumsum()`: within each query entity the ranks
are consecutive, continuing from the rows already passed. -/
theorem cumsum_ranks_filter (c : Str) :
    ∀ (l pre : List CandidateRow),
      ((cumsum_ranks pre l).filter (fun p => p.1.compauxlib = c)).map
          (fun p => p.2) =
        List.range' (count_compauxlib pre c + 1) (count_compauxlib l c)
  | [], pre => by simp [cumsum_ranks, count_compauxlib]
  | r :: rest, pre => by
    rw [cumsum_ranks, List.filter_cons]
    by_cases h : r.compauxlib = c
    · rw [if_pos (by simp [h]), List.map_cons,
        cumsum_ranks_filter c rest (pre ++ [r])]
      have hpre : count_compauxlib (pre ++ [r]) c =
          count_compauxlib pre c + 1 := by
        rw [count_compauxlib_append, count_compauxlib_cons, if_pos h]
        simp [count_compauxlib]
      have hcons : count_compauxlib (r :: rest) c =
          count_compauxlib rest c + 1 := by
        rw [count_compauxlib_cons, if_pos h]
        omega
      rw [hpre, hcons, List.range'_succ, h]
    · rw [if_neg (by simp [h]), cumsum_ranks_filter c rest (pre ++ [r])]
      have hpre : count_compauxlib (pre ++ [r]) c = count_compauxlib pre c := by
        rw [count_compauxlib_append, count_compauxlib_cons, if_neg h]
        simp [count_compauxlib]
      have hcons : count_compauxlib (r :: rest) c = count_compauxlib rest c := by
        rw [count_compauxlib_cons, if_neg h]
        omega
      rw [hpre, hcons]

/-- Restricting a frame sorted by
`(COMPAUXLIB, jaccard_distance, geo_distance)` to one query entity
leaves it sorted ascending by `(jaccard_distance, geo_distance)`. -/
theorem sorted_filter_distance (s : List CandidateRow) (c : Str)
    (hs : s.Sorted candidate_order) :
    (s.filter (fun r => r.compauxlib = c)).Sorted distance_order := by
  have h1 : (s.filter (fun r => r.compauxlib = c)).Sorted candidate_order :=
    List.Pairwise.sublist (List.filter_sublist s) hs
  refine List.Pairwise.imp_of_mem ?_ h1
  intro a b ha hb hab
  have hac : a.compauxlib = c := by simpa using (List.mem_filter.mp ha).2
  have hbc : b.compauxlib = c := by simpa using (List.mem_filter.mp hb).2
  rcases hab with h | ⟨-, h⟩
  · exact absurd ((hac.trans hbc.symm) ▸ h) (lt_irrefl _)
  · exact h

/--
C1 (amended): `_set_final_rank` (i) sorts the candidates so that
within each query entity they are ascending by
`(jaccard_distance, geo_distance)`, (ii) assigns each query entity
consecutive ranks starting at 1 in that order, (iii) after the global
sort by rank keeps, for each siren, only a best-ranked row, every
siren keeping exactly one representative, and (iv) marks a row
validated exactly when `limit` is absent or its pre-deduplication rank
is at most `limit` — NOT necessarily the first `limit` surviving rows
of each query entity, since deduplication can remove low-ranked rows
without renumbering the survivors.
-/
theorem set_final_rank_spec (df : List CandidateRow) (limit : Option Nat) :
    (sort_candidates df).Perm df ∧
    (∀ c, ((sort_candidates df).filter
        (fun r => r.compauxlib = c)).Sorted distance_order) ∧
    (∀ c, ((with_final_rank (sort_candidates df)).filter
          (fun p => p.1.compauxlib = c)).map (fun p => p.2) =
        List.range' 1 (count_compauxlib df c)) ∧
    (∀ p ∈ set_final_rank df limit,
      ∀ q ∈ with_final_rank (sort_candidates df),
        q.1.siren = p.1.siren → p.2.1 ≤ q.2) ∧
    (∀ q ∈ with_final_rank (sort_candidates df),
      ∃ p ∈ set_final_rank df limit, p.1.siren = q.1.siren) ∧
    (∀ p ∈ set_final_rank df limit,
      (limit = none → p.2.2 = true) ∧
      (∀ l, limit = some l → (p.2.2 = true ↔ p.2.1 ≤ l))) := by
  refine ⟨List.perm_insertionSort candidate_order df, ?_, ?_, ?_, ?_, ?_⟩
  · intro c
    exact sorted_filter_distance _ c
      (List.sorted_insertionSort candidate_order df)
  · intro c
    rw [with_final_rank, cumsum_ranks_filter c (sort_candidates df) []]
    have : count_compauxlib (sort_candidates df) c = count_compauxlib df c := by
      unfold count_compauxlib
      exact ((List.perm_insertionSort candidate_order df).filter _).length_eq
    rw [this]
    rfl
  · intro p hp q hq hqp
    unfold set_final_rank at hp
    obtain ⟨x, hx, rfl⟩ := List.mem_map.mp hp
    exact drop_duplicates_siren_min _ []
      (List.sorted_insertionSort rank_order _) x hx q
      ((List.mem_insertionSort _).mpr hq) hqp
  · intro q hq
    rcases drop_duplicates_siren_covers
        ((with_final_rank (sort_candidates df)).insertionSort rank_order) []
        q ((List.mem_insertionSort _).mpr hq) with hin | ⟨x, hx, hxs⟩
    · simp at hin
    · refine ⟨(x.1, x.2,
        match limit with
        | none => true
        | some l => decide (x.2 ≤ l)), ?_, hxs⟩
      unfold set_final_rank
      exact List.mem_map.mpr ⟨x, hx, rfl⟩
  · intro p hp
    unfold set_final_rank at hp
    obtain ⟨x, hx, rfl⟩ := List.mem_map.mp hp
    constructor
    · rintro rfl
      rfl
    · rintro l rfl
      simp

/-- The candidate frame of the C1 counterexample: query entity `"A"`
proposes sirens `Z`, `X`, `W` with exact distances 1, 2, 3; query
entity `"B"` proposes siren `X` with distance 1. -/
def c1_example_df : List CandidateRow :=
  [⟨[65], [90], 1, 0⟩, ⟨[65], [88], 2, 0⟩,
   ⟨[65], [87], 3, 0⟩, ⟨[66], [88], 1, 0⟩]

/--
C1 counterexample: with `limit = 2`, entity `"A"` ends with two
deduplicated candidates (its siren-`X` row, rank 2, lost the global
siren deduplication to entity `"B"`'s rank-1 row), yet only its
rank-1 row is validated: the surviving rank-3 row — the second of the
first 2 ranked deduplicated candidates of `"A"` — is NOT validated,
refuting "exactly the first `limit` ranked deduplicated candidates
per query entity are marked validated".
-/
theorem set_final_rank_not_first_limit_per_entity :
    ((set_final_rank c1_example_df (some 2)).filter
        (fun p => p.1.compauxlib = [65])).map (fun p => (p.2.1, p.2.2)) =
      [(1, true), (3, false)] := by
  decide

/-- C1 amended-claim witness: on the counterexample frame, entity
`"A"`'s rows receive the consecutive ranks 1, 2, 3. -/
theorem set_final_rank_spec_witness :
    ((with_final_rank (sort_candidates c1_example_df)).filter
        (fun p => p.1.compauxlib = [65])).map (fun p => p.2) =
      List.range' 1 (count_compauxlib c1_example_df [65]) :=
  (set_final_rank_spec c1_example_df (some 2)).2.2.1 [65]

end Siren
